import Mathlib

/-!
prof-mem: the thread-local allocation-entry counter.

Embedding of `src/native.cpp`:

```
thread_local int ALLOC_ENTRY = 0;
int alloc_entry_increase() { ALLOC_ENTRY += 1; return ALLOC_ENTRY; }
int alloc_entry_decrease() { ALLOC_ENTRY -= 1; return ALLOC_ENTRY; }
```

The C++ `int` is 32 bits wide and is modelled as a mathematical integer that every
arithmetic operation reduces back into `[-2^31, 2^31 - 1]` (two's complement
wraparound, which is what the `add`/`sub` instructions of the compiled code do).
The thread-local variable is passed explicitly: a function takes the calling
thread's `ALLOC_ENTRY` and gives back the stored value together with the value
returned to the caller.  The storage of the whole process is a map from thread
to that thread's instance of the variable.
-/

namespace ProfMem

/-! ## Machine integers -/

/-- Smallest value of a 32-bit `int`, `-2^31`. -/
def INT_MIN : Int := -2147483648

/-- Largest value of a 32-bit `int`, `2^31 - 1`. -/
def INT_MAX : Int := 2147483647

/-- Reduction of an integer to the 32-bit two's complement range: the unique value
in `[-2^31, 2^31 - 1]` congruent to `x` modulo `2^32`.  It is applied to the result of
`+= 1` and `-= 1`; ISO C++ leaves signed overflow undefined, and the embedding takes
the wraparound of the machine instruction, the behaviour the interface documents. -/
def wrapInt (x : Int) : Int := (x + 2147483648) % 4294967296 - 2147483648

/-- Being a value of the type `int`. -/
def isInt (x : Int) : Prop := INT_MIN ≤ x ∧ x ≤ INT_MAX

instance (x : Int) : Decidable (isInt x) := by
  unfold isInt
  infer_instance

/-! ## The two entry points -/

/-- Outcome of one call: the value left in the calling thread's `ALLOC_ENTRY` and the
value handed back by `return`. -/
structure Outcome where
  /-- The calling thread's `ALLOC_ENTRY` once the call is over. -/
  ALLOC_ENTRY : Int
  /-- The value of the `return` statement. -/
  ret : Int
deriving DecidableEq

/-- Initial value of every thread's instance: `thread_local int ALLOC_ENTRY = 0;`. -/
def ALLOC_ENTRY_init : Int := 0

/-- The function `alloc_entry_increase`: `ALLOC_ENTRY += 1; return ALLOC_ENTRY;`.
The argument is the calling thread's `ALLOC_ENTRY` on entry. -/
def alloc_entry_increase (ALLOC_ENTRY : Int) : Outcome :=
  -- ALLOC_ENTRY += 1;
  let ALLOC_ENTRY := wrapInt (ALLOC_ENTRY + 1)
  -- return ALLOC_ENTRY;
  { ALLOC_ENTRY := ALLOC_ENTRY, ret := ALLOC_ENTRY }

/-- The function `alloc_entry_decrease`: `ALLOC_ENTRY -= 1; return ALLOC_ENTRY;`.
The argument is the calling thread's `ALLOC_ENTRY` on entry. -/
def alloc_entry_decrease (ALLOC_ENTRY : Int) : Outcome :=
  -- ALLOC_ENTRY -= 1;
  let ALLOC_ENTRY := wrapInt (ALLOC_ENTRY - 1)
  -- return ALLOC_ENTRY;
  { ALLOC_ENTRY := ALLOC_ENTRY, ret := ALLOC_ENTRY }

/-! ## Sequences of calls on one thread -/

/-- One call of an entry point. -/
inductive Call where
  | increase
  | decrease
deriving DecidableEq

/-- Run the entry point a call names on a thread whose counter is `v`. -/
def Call.exec : Call → Int → Outcome
  | Call.increase, v => alloc_entry_increase v
  | Call.decrease, v => alloc_entry_decrease v

/-- The values returned, in order, by a sequence of calls made by one thread whose
counter is `v` before the first of them. -/
def returns (v : Int) : List Call → List Int
  | [] => []
  | c :: cs => (c.exec v).ret :: returns (c.exec v).ALLOC_ENTRY cs

/-- The counter of a thread after a sequence of calls, `v` being its counter before. -/
def counterAfter (v : Int) : List Call → Int
  | [] => v
  | c :: cs => counterAfter (c.exec v).ALLOC_ENTRY cs

/-- The summand the specification attaches to a call: `+1` for an increase, `-1` for a
decrease. -/
def Call.delta : Call → Int
  | Call.increase => 1
  | Call.decrease => -1

/-- The specification's running sum: the sum of `+1` / `-1` over the first `k` calls,
as an unbounded integer. -/
def runningSum (calls : List Call) (k : Nat) : Int :=
  ((calls.take k).map Call.delta).sum

/-- The number of calls of `alloc_entry_increase` among the first `k` calls. -/
def increasesIn (calls : List Call) (k : Nat) : Nat :=
  (calls.take k).count Call.increase

/-- The number of calls of `alloc_entry_decrease` among the first `k` calls. -/
def decreasesIn (calls : List Call) (k : Nat) : Nat :=
  (calls.take k).count Call.decrease

/-! ## Threads -/

/-- Thread identifiers. -/
abbrev Tid := Nat

/-- The thread-local storage of the process: each thread's own instance of
`ALLOC_ENTRY`. -/
abbrev Mem := Tid → Int

/-- Storage in which no thread has made a call yet: every instance holds its
initialiser. -/
def freshMem : Mem := fun _ => ALLOC_ENTRY_init

/-- Thread `t` makes call `c`: the entry point reads and writes the instance of `t`
and no other.  Gives the returned value and the storage afterwards. -/
def callOn (t : Tid) (c : Call) (m : Mem) : Int × Mem :=
  let r := c.exec (m t)
  (r.ret, Function.update m t r.ALLOC_ENTRY)

/-- The storage after thread `t` has made call `c`. -/
def memAfter (t : Tid) (c : Call) (m : Mem) : Mem := (callOn t c m).2

/-- An interleaved execution: the calls of all threads in the order they take effect.
Gives, in that order, who was returned what, and the storage at the end. -/
def runTrace (m : Mem) : List (Tid × Call) → List (Tid × Int) × Mem
  | [] => ([], m)
  | (t, c) :: rest =>
    let step := callOn t c m
    let tail := runTrace step.2 rest
    ((t, step.1) :: tail.1, tail.2)

/-- The values one thread was returned in an execution, in order. -/
def returnsOf (t : Tid) (log : List (Tid × Int)) : List Int :=
  (log.filter (fun e => e.1 == t)).map (fun e => e.2)

/-- The calls of thread `A` in the two-thread scenario, in program order: increase,
increase, decrease. -/
def scenarioCalls (A : Tid) : List (Tid × Call) :=
  [(A, Call.increase), (A, Call.increase), (A, Call.decrease)]

/-- The execution in which event `e` takes effect after the first `i` events of `tr`
(after all of them when `tr` has fewer than `i`). -/
def insertAt (i : Nat) (e : Tid × Call) (tr : List (Tid × Call)) : List (Tid × Call) :=
  tr.take i ++ e :: tr.drop i

/-! ## Arithmetic of the wraparound -/

theorem wrapInt_of_isInt {x : Int} (h : isInt x) : wrapInt x = x := by
  unfold isInt INT_MIN INT_MAX at h
  unfold wrapInt
  omega

theorem isInt_wrapInt (x : Int) : isInt (wrapInt x) := by
  unfold isInt INT_MIN INT_MAX wrapInt
  omega

theorem wrapInt_wrapInt_add (x y : Int) : wrapInt (wrapInt x + y) = wrapInt (x + y) := by
  unfold wrapInt
  omega

theorem wrapInt_eq_self_iff (x : Int) : wrapInt x = x ↔ isInt x := by
  constructor
  · intro h
    rw [← h]
    exact isInt_wrapInt x
  · exact wrapInt_of_isInt

/-! ## What a call does, in one formula -/

theorem exec_ALLOC_ENTRY (c : Call) (v : Int) :
    (c.exec v).ALLOC_ENTRY = wrapInt (v + c.delta) := by
  cases c
  · rfl
  · show wrapInt (v - 1) = wrapInt (v + -1)
    rw [Int.sub_eq_add_neg]

theorem exec_ret (c : Call) (v : Int) : (c.exec v).ret = wrapInt (v + c.delta) := by
  cases c
  · rfl
  · show wrapInt (v - 1) = wrapInt (v + -1)
    rw [Int.sub_eq_add_neg]

theorem runningSum_nil (k : Nat) : runningSum [] k = 0 := by
  simp [runningSum]

theorem runningSum_zero (calls : List Call) : runningSum calls 0 = 0 := by
  simp [runningSum]

theorem runningSum_cons (c : Call) (cs : List Call) (k : Nat) :
    runningSum (c :: cs) (k + 1) = c.delta + runningSum cs k := by
  simp [runningSum]

/-- The value returned by call number `k + 1` is the running sum over the first `k + 1`
calls, added to the starting counter and reduced to the range of `int`. -/
theorem returns_getElem (calls : List Call) (v : Int) (k : Nat) (hk : k < calls.length) :
    (returns v calls)[k]? = some (wrapInt (v + runningSum calls (k + 1))) := by
  induction calls generalizing v k with
  | nil => simp at hk
  | cons c cs ih =>
    cases k with
    | zero =>
      simp [returns, runningSum_cons, runningSum_zero, exec_ret]
    | succ j =>
      have hj : j < cs.length := by simpa using hk
      simp only [returns, List.getElem?_cons_succ]
      rw [ih _ j hj, exec_ALLOC_ENTRY, wrapInt_wrapInt_add, runningSum_cons, add_assoc]

theorem returns_length (calls : List Call) (v : Int) :
    (returns v calls).length = calls.length := by
  induction calls generalizing v with
  | nil => rfl
  | cons c cs ih => simp [returns, ih]

/-- The counter after a sequence of calls is the sum of all the summands, added to the
starting counter and reduced to the range of `int`. -/
theorem counterAfter_eq (calls : List Call) (v : Int) (hv : isInt v) :
    counterAfter v calls = wrapInt (v + runningSum calls calls.length) := by
  induction calls generalizing v with
  | nil => simp [counterAfter, runningSum_nil, wrapInt_of_isInt hv]
  | cons c cs ih =>
    simp only [counterAfter, List.length_cons]
    rw [ih _ (by rw [exec_ALLOC_ENTRY]; exact isInt_wrapInt _), exec_ALLOC_ENTRY,
      wrapInt_wrapInt_add, runningSum_cons, add_assoc]

theorem runningSum_replicate (c : Call) (n k : Nat) (hk : k ≤ n) :
    runningSum (List.replicate n c) k = (k : Int) * c.delta := by
  unfold runningSum
  rw [List.take_replicate, List.map_replicate, List.sum_replicate, Nat.min_eq_left hk,
    nsmul_eq_mul]

theorem runningSum_bounds (calls : List Call) (k : Nat) :
    -(k : Int) ≤ runningSum calls k ∧ runningSum calls k ≤ (k : Int) := by
  induction calls generalizing k with
  | nil => rw [runningSum_nil]; omega
  | cons c cs ih =>
    cases k with
    | zero => rw [runningSum_zero]; omega
    | succ j =>
      rw [runningSum_cons]
      have h := ih j
      cases c <;> simp only [Call.delta] <;> omega

theorem wrapInt_congruent (x : Int) : (4294967296 : Int) ∣ wrapInt x - x := by
  unfold wrapInt
  omega

/-! ## Counting the calls -/

theorem sum_delta_eq_counts (l : List Call) :
    (l.map Call.delta).sum = (l.count Call.increase : Int) - (l.count Call.decrease : Int) := by
  induction l with
  | nil => simp
  | cons c cs ih =>
    cases c <;> simp [Call.delta, ih] <;> omega

theorem runningSum_eq_counts (calls : List Call) (k : Nat) :
    runningSum calls k = (increasesIn calls k : Int) - (decreasesIn calls k : Int) := by
  unfold runningSum increasesIn decreasesIn
  exact sum_delta_eq_counts _

theorem runningSum_length (calls : List Call) :
    runningSum calls calls.length = (calls.map Call.delta).sum := by
  unfold runningSum
  rw [List.take_length]

theorem runningSum_take_length (calls : List Call) (j : Nat) :
    runningSum (calls.take j) (calls.take j).length = runningSum calls j := by
  rw [runningSum_length]
  rfl

/-- The counter of a fresh thread after its first `j` calls. -/
theorem counterAfter_take (calls : List Call) (j : Nat) :
    counterAfter ALLOC_ENTRY_init (calls.take j) = wrapInt (runningSum calls j) := by
  rw [counterAfter_eq _ _ (by decide), runningSum_take_length]
  simp [ALLOC_ENTRY_init]

/-- The counter of a fresh thread after a whole sequence of calls, by the numbers of
calls of each kind. -/
theorem counterAfter_eq_counts (calls : List Call) :
    counterAfter ALLOC_ENTRY_init calls
      = wrapInt ((calls.count Call.increase : Int) - (calls.count Call.decrease : Int)) := by
  rw [counterAfter_eq _ _ (by decide), runningSum_length, sum_delta_eq_counts]
  simp [ALLOC_ENTRY_init]

/-! ## Isolation of threads -/

theorem memAfter_other (t u : Tid) (c : Call) (m : Mem) (h : t ≠ u) :
    memAfter t c m u = m u := by
  unfold memAfter callOn
  exact Function.update_noteq (Ne.symm h) _ m

theorem memAfter_iterate_other (t u : Tid) (c : Call) (m : Mem) (n : Nat) (h : t ≠ u) :
    ((memAfter t c)^[n] m) u = m u := by
  induction n with
  | zero => rfl
  | succ j ih => rw [Function.iterate_succ_apply', memAfter_other t u c _ h, ih]

/-! ## The claims -/

/-- C1, as stated, fails: a thread that starts at 0 and calls `alloc_entry_increase`
`2^31` times is returned `-2^31` by the last call, while the running sum of `+1` over
those `2^31` calls is `2^31`. -/
theorem C1_long_run_counterexample :
    (returns ALLOC_ENTRY_init (List.replicate 2147483648 Call.increase))[2147483647]?
        = some (-2147483648)
      ∧ runningSum (List.replicate 2147483648 Call.increase) 2147483648 = 2147483648 := by
  constructor
  · rw [returns_getElem _ _ _ (by rw [List.length_replicate]; norm_num),
      runningSum_replicate _ _ _ (by norm_num)]
    norm_num [Call.delta, ALLOC_ENTRY_init, wrapInt]
  · rw [runningSum_replicate _ _ _ (by norm_num)]
    norm_num [Call.delta]

/-- C1, amended: for every sequence of calls made by one thread whose counter starts
at 0, the value returned by call number `k + 1` equals the running sum of `+1` / `-1`
over the first `k + 1` calls exactly when that running sum is a value of `int`, that is
lies in `[-2^31, 2^31 - 1]`. -/
theorem C1_returns_eq_runningSum (calls : List Call) (k : Nat) (hk : k < calls.length) :
    (returns ALLOC_ENTRY_init calls)[k]? = some (runningSum calls (k + 1))
      ↔ isInt (runningSum calls (k + 1)) := by
  rw [returns_getElem calls _ k hk]
  simp only [ALLOC_ENTRY_init, zero_add, Option.some.injEq]
  exact wrapInt_eq_self_iff _

/-- Witness of C1: the third call of increase, increase, decrease. -/
theorem C1_returns_eq_runningSum_witness :
    2 < [Call.increase, Call.increase, Call.decrease].length
      ∧ ((returns ALLOC_ENTRY_init [Call.increase, Call.increase, Call.decrease])[2]?
            = some (runningSum [Call.increase, Call.increase, Call.decrease] (2 + 1))
          ↔ isInt (runningSum [Call.increase, Call.increase, Call.decrease] (2 + 1))) :=
  ⟨by decide,
    C1_returns_eq_runningSum [Call.increase, Call.increase, Call.decrease] 2 (by decide)⟩

/-- C2: for distinct threads `T1` and `T2`, a call made by `T1` leaves the counter of
`T2` as it was, whatever the call and the storage; and after `T1` has called
`alloc_entry_increase` `N` times from fresh storage, the first
`alloc_entry_increase` of `T2` returns 1. -/
theorem C2_threads_isolated (T1 T2 : Tid) (N : Nat) (hne : T1 ≠ T2) :
    (∀ (c : Call) (m : Mem), memAfter T1 c m T2 = m T2)
      ∧ (callOn T2 Call.increase ((memAfter T1 Call.increase)^[N] freshMem)).1 = 1 := by
  refine ⟨fun c m => memAfter_other T1 T2 c m hne, ?_⟩
  show (Call.increase.exec (((memAfter T1 Call.increase)^[N] freshMem) T2)).ret = 1
  rw [memAfter_iterate_other T1 T2 _ _ N hne]
  rfl

/-- Witness of C2: thread 0 increases five times, then thread 1 increases. -/
theorem C2_threads_isolated_witness :
    (0 : Tid) ≠ 1
      ∧ (∀ (c : Call) (m : Mem), memAfter 0 c m 1 = m 1)
      ∧ (callOn 1 Call.increase ((memAfter 0 Call.increase)^[5] freshMem)).1 = 1 :=
  ⟨by decide, C2_threads_isolated 0 1 5 (by decide)⟩

/-- C3: for every `int` value `v` of a thread's counter, `alloc_entry_increase` followed
at once by `alloc_entry_decrease` leaves the counter equal to `v`, and the call of
`alloc_entry_decrease` returns `v`. -/
theorem C3_increase_then_decrease (v : Int) (hv : isInt v) :
    (alloc_entry_decrease (alloc_entry_increase v).ALLOC_ENTRY).ALLOC_ENTRY = v
      ∧ (alloc_entry_decrease (alloc_entry_increase v).ALLOC_ENTRY).ret = v := by
  unfold isInt INT_MIN INT_MAX at hv
  simp only [alloc_entry_increase, alloc_entry_decrease, wrapInt]
  omega

/-- Witness of C3: the round trip at the largest `int`, where the increase wraps. -/
theorem C3_increase_then_decrease_witness :
    isInt 2147483647
      ∧ (alloc_entry_decrease (alloc_entry_increase 2147483647).ALLOC_ENTRY).ALLOC_ENTRY
          = 2147483647
      ∧ (alloc_entry_decrease (alloc_entry_increase 2147483647).ALLOC_ENTRY).ret
          = 2147483647 :=
  ⟨by decide, C3_increase_then_decrease 2147483647 (by decide)⟩

/-- C4, as stated, fails: at the counter value `2^31 - 1` the call of
`alloc_entry_increase` stores and returns `-2^31`, not `2^31`. -/
theorem C4_increase_at_max_counterexample :
    isInt INT_MAX
      ∧ alloc_entry_increase INT_MAX = { ALLOC_ENTRY := -2147483648, ret := -2147483648 }
      ∧ (alloc_entry_increase INT_MAX).ALLOC_ENTRY ≠ INT_MAX + 1
      ∧ (alloc_entry_increase INT_MAX).ret ≠ INT_MAX + 1 := by
  decide

/-- C4, amended: for every `int` value `v` of the calling thread's counter,
`alloc_entry_increase` sets the counter to `v + 1` when `v < 2^31 - 1` and to `-2^31`
when `v = 2^31 - 1`, and returns that new value: the value returned is the counter
stored after the call. -/
theorem C4_increase_post_value (v : Int) (hv : isInt v) :
    alloc_entry_increase v
      = { ALLOC_ENTRY := if v = INT_MAX then INT_MIN else v + 1,
          ret := if v = INT_MAX then INT_MIN else v + 1 } := by
  unfold isInt at hv
  unfold INT_MIN INT_MAX at *
  simp only [alloc_entry_increase, wrapInt]
  split <;> (congr 1 <;> omega)

/-- Witness of C4: the counter value 41. -/
theorem C4_increase_post_value_witness :
    isInt 41
      ∧ alloc_entry_increase 41
          = { ALLOC_ENTRY := if (41 : Int) = INT_MAX then INT_MIN else 41 + 1,
              ret := if (41 : Int) = INT_MAX then INT_MIN else 41 + 1 } :=
  ⟨by decide, C4_increase_post_value 41 (by decide)⟩

/-- C5, as stated, fails: at the counter value `-2^31` the call of
`alloc_entry_decrease` stores and returns `2^31 - 1`, not `-2^31 - 1`. -/
theorem C5_decrease_at_min_counterexample :
    isInt INT_MIN
      ∧ alloc_entry_decrease INT_MIN = { ALLOC_ENTRY := 2147483647, ret := 2147483647 }
      ∧ (alloc_entry_decrease INT_MIN).ALLOC_ENTRY ≠ INT_MIN - 1
      ∧ (alloc_entry_decrease INT_MIN).ret ≠ INT_MIN - 1 := by
  decide

/-- C5, amended: for every `int` value `v` of the calling thread's counter,
`alloc_entry_decrease` sets the counter to `v - 1` when `v > -2^31` and to `2^31 - 1`
when `v = -2^31`, and returns that new value: the value returned is the counter
stored after the call. -/
theorem C5_decrease_post_value (v : Int) (hv : isInt v) :
    alloc_entry_decrease v
      = { ALLOC_ENTRY := if v = INT_MIN then INT_MAX else v - 1,
          ret := if v = INT_MIN then INT_MAX else v - 1 } := by
  unfold isInt at hv
  unfold INT_MIN INT_MAX at *
  simp only [alloc_entry_decrease, wrapInt]
  split <;> (congr 1 <;> omega)

/-- Witness of C5: the counter value 0. -/
theorem C5_decrease_post_value_witness :
    isInt 0
      ∧ alloc_entry_decrease 0
          = { ALLOC_ENTRY := if (0 : Int) = INT_MIN then INT_MAX else 0 - 1,
              ret := if (0 : Int) = INT_MIN then INT_MAX else 0 - 1 } :=
  ⟨by decide, C5_decrease_post_value 0 (by decide)⟩

/-- C6, as stated, fails in its last part: after `2^31 + 1` calls of
`alloc_entry_decrease` on a fresh thread the counter is `2^31 - 1`, not
`-(2^31 + 1)`. -/
theorem C6_many_decreases_counterexample :
    counterAfter ALLOC_ENTRY_init (List.replicate 2147483649 Call.decrease) = 2147483647
      ∧ counterAfter ALLOC_ENTRY_init (List.replicate 2147483649 Call.decrease)
          ≠ -((2147483649 : Nat) : Int) := by
  have h : counterAfter ALLOC_ENTRY_init (List.replicate 2147483649 Call.decrease)
      = 2147483647 := by
    rw [counterAfter_eq _ _ (by decide), List.length_replicate,
      runningSum_replicate _ _ _ (le_refl _)]
    norm_num [Call.delta, ALLOC_ENTRY_init, wrapInt]
  rw [h]
  exact ⟨rfl, by norm_num⟩

/-- C6, amended: the counter is not clamped at zero and no call fails.  For every `k`
up to `2^31`, after `k` calls of `alloc_entry_decrease` on a fresh thread the counter
is `-k`; from a counter of 0 the call returns -1 and leaves the counter at -1; every
call of either entry point, whatever the counter, returns an `int`; and for every `int`
value `v` above `-2^31`, also when `v ≤ 0`, `alloc_entry_decrease` stores and returns
`v - 1`. -/
theorem C6_decrease_unclamped (k : Nat) (hk : k ≤ 2147483648) :
    counterAfter ALLOC_ENTRY_init (List.replicate k Call.decrease) = -(k : Int)
      ∧ alloc_entry_decrease 0 = { ALLOC_ENTRY := -1, ret := -1 }
      ∧ (∀ (c : Call) (v : Int), isInt (c.exec v).ret)
      ∧ (∀ v : Int, isInt v → INT_MIN < v →
          alloc_entry_decrease v = { ALLOC_ENTRY := v - 1, ret := v - 1 }) := by
  refine ⟨?_, by decide, fun c v => by rw [exec_ret]; exact isInt_wrapInt _, ?_⟩
  · rw [counterAfter_eq _ _ (by decide), List.length_replicate,
      runningSum_replicate _ _ _ (le_refl _)]
    simp only [Call.delta, ALLOC_ENTRY_init, wrapInt]
    omega
  · intro v hv hmin
    unfold isInt at hv
    unfold INT_MIN INT_MAX at *
    simp only [alloc_entry_decrease, wrapInt]
    congr 1 <;> omega

/-- Witness of C6: seven decreases on a fresh thread. -/
theorem C6_decrease_unclamped_witness :
    7 ≤ 2147483648
      ∧ counterAfter ALLOC_ENTRY_init (List.replicate 7 Call.decrease) = -((7 : Nat) : Int)
      ∧ alloc_entry_decrease 0 = { ALLOC_ENTRY := -1, ret := -1 }
      ∧ (∀ (c : Call) (v : Int), isInt (c.exec v).ret)
      ∧ (∀ v : Int, isInt v → INT_MIN < v →
          alloc_entry_decrease v = { ALLOC_ENTRY := v - 1, ret := v - 1 }) :=
  ⟨by decide, C6_decrease_unclamped 7 (by decide)⟩

/-- C7: the counter is a 32-bit signed integer with wraparound.  Called at `2^31 - 1`,
`alloc_entry_increase` stores and returns `-2^31`; called at `-2^31`,
`alloc_entry_decrease` stores and returns `2^31 - 1`; both calls give an ordinary
outcome, no error; and whatever the counter, what a call stores and returns lies in
`[-2^31, 2^31 - 1]`. -/
theorem C7_wraparound :
    INT_MAX = 2 ^ 31 - 1 ∧ INT_MIN = -2 ^ 31
      ∧ alloc_entry_increase (2 ^ 31 - 1) = { ALLOC_ENTRY := -2 ^ 31, ret := -2 ^ 31 }
      ∧ alloc_entry_decrease (-2 ^ 31) = { ALLOC_ENTRY := 2 ^ 31 - 1, ret := 2 ^ 31 - 1 }
      ∧ (∀ (c : Call) (v : Int), isInt (c.exec v).ALLOC_ENTRY ∧ isInt (c.exec v).ret) := by
  refine ⟨by decide, by decide, by decide, by decide, fun c v => ?_⟩
  rw [exec_ALLOC_ENTRY, exec_ret]
  exact ⟨isInt_wrapInt _, isInt_wrapInt _⟩

/-- C8: on a thread that has made no call yet, whose counter holds its initial value 0,
one call of `alloc_entry_increase` returns 1. -/
theorem C8_first_increase (t : Tid) :
    freshMem t = 0 ∧ (callOn t Call.increase freshMem).1 = 1
      ∧ (alloc_entry_increase ALLOC_ENTRY_init).ret = 1 := by
  refine ⟨rfl, rfl, rfl⟩

/-- C9: on a thread that has made no call yet, whose counter holds its initial value 0,
one call of `alloc_entry_decrease` returns -1. -/
theorem C9_first_decrease (t : Tid) :
    freshMem t = 0 ∧ (callOn t Call.decrease freshMem).1 = -1
      ∧ (alloc_entry_decrease ALLOC_ENTRY_init).ret = -1 := by
  refine ⟨rfl, rfl, rfl⟩

/-- C10: two distinct threads start from fresh storage.  Thread `A` calls increase,
increase, decrease and thread `B` calls increase, the call of `B` taking effect after
any number `i` of the calls of `A` (before all of them, between two of them, or after
all of them).  In every such execution `A` is returned 1, 2, 1 in that order and `B` is
returned 1. -/
theorem C10_two_thread_scenario (A B : Tid) (hAB : A ≠ B) (i : Nat) :
    returnsOf A (runTrace freshMem (insertAt i (B, Call.increase) (scenarioCalls A))).1
        = [1, 2, 1]
      ∧ returnsOf B (runTrace freshMem (insertAt i (B, Call.increase) (scenarioCalls A))).1
        = [1] := by
  have hBA : B ≠ A := Ne.symm hAB
  have hab : (A == B) = false := by simpa using hAB
  have hba : (B == A) = false := by simpa using hBA
  rcases i with _ | _ | _ | _ | j <;>
    simp [insertAt, scenarioCalls, runTrace, callOn, returnsOf, freshMem, ALLOC_ENTRY_init,
      Call.exec, alloc_entry_increase, alloc_entry_decrease, Function.update, hAB, hBA,
      hab, hba, List.filter_cons, wrapInt]

/-- Witness of C10: threads 0 and 1, the call of thread 1 landing between the two
increases of thread 0. -/
theorem C10_two_thread_scenario_witness :
    (0 : Tid) ≠ 1
      ∧ returnsOf 0 (runTrace freshMem (insertAt 1 (1, Call.increase) (scenarioCalls 0))).1
        = [1, 2, 1]
      ∧ returnsOf 1 (runTrace freshMem (insertAt 1 (1, Call.increase) (scenarioCalls 0))).1
        = [1] :=
  ⟨by decide, C10_two_thread_scenario 0 1 (by decide) 1⟩

/-- C11: balanced-pair discipline.  For every sequence of fewer than `2^31` calls on a
fresh thread in which, after any number of calls, at least as many increases as
decreases have been made, every value returned is `≥ 0`, one value is returned per
call, and after any number `j` of the calls the counter is 0 exactly when the numbers
of increases and of decreases among the first `j` calls are equal. -/
theorem C11_balanced_nonneg (calls : List Call) (hlen : calls.length < 2147483648)
    (hbal : ∀ j, j ≤ calls.length → decreasesIn calls j ≤ increasesIn calls j) :
    (∀ r ∈ returns ALLOC_ENTRY_init calls, 0 ≤ r)
      ∧ (returns ALLOC_ENTRY_init calls).length = calls.length
      ∧ (∀ j, j ≤ calls.length →
          (counterAfter ALLOC_ENTRY_init (calls.take j) = 0
            ↔ increasesIn calls j = decreasesIn calls j)) := by
  have hint : ∀ j, j ≤ calls.length → isInt (runningSum calls j) := by
    intro j hj
    have hb := runningSum_bounds calls j
    unfold isInt INT_MIN INT_MAX
    omega
  refine ⟨?_, returns_length _ _, ?_⟩
  · intro r hr
    obtain ⟨k, hk, hkr⟩ := List.getElem_of_mem hr
    rw [returns_length] at hk
    have hget := returns_getElem calls ALLOC_ENTRY_init k hk
    rw [List.getElem?_eq_getElem (by rw [returns_length]; exact hk), hkr] at hget
    have hr2 : r = wrapInt (ALLOC_ENTRY_init + runningSum calls (k + 1)) :=
      Option.some.inj hget
    have hw : wrapInt (runningSum calls (k + 1)) = runningSum calls (k + 1) :=
      wrapInt_of_isInt (hint (k + 1) hk)
    have hc := runningSum_eq_counts calls (k + 1)
    have hb := hbal (k + 1) hk
    simp only [ALLOC_ENTRY_init, zero_add] at hr2
    omega
  · intro j hj
    rw [counterAfter_take, wrapInt_of_isInt (hint j hj), runningSum_eq_counts]
    omega

/-- Witness of C11: increase, increase, decrease, decrease. -/
theorem C11_balanced_nonneg_witness :
    [Call.increase, Call.increase, Call.decrease, Call.decrease].length < 2147483648
      ∧ (∀ j, j ≤ [Call.increase, Call.increase, Call.decrease, Call.decrease].length →
          decreasesIn [Call.increase, Call.increase, Call.decrease, Call.decrease] j
            ≤ increasesIn [Call.increase, Call.increase, Call.decrease, Call.decrease] j)
      ∧ (∀ r ∈ returns ALLOC_ENTRY_init
            [Call.increase, Call.increase, Call.decrease, Call.decrease], 0 ≤ r)
      ∧ (counterAfter ALLOC_ENTRY_init
            ([Call.increase, Call.increase, Call.decrease, Call.decrease].take 4) = 0
          ↔ increasesIn [Call.increase, Call.increase, Call.decrease, Call.decrease] 4
            = decreasesIn [Call.increase, Call.increase, Call.decrease, Call.decrease] 4) :=
  have hbal : ∀ j, j ≤ [Call.increase, Call.increase, Call.decrease, Call.decrease].length →
      decreasesIn [Call.increase, Call.increase, Call.decrease, Call.decrease] j
        ≤ increasesIn [Call.increase, Call.increase, Call.decrease, Call.decrease] j := by
    intro j hj
    have hj4 : j ≤ 4 := hj
    interval_cases j <;> decide
  ⟨by decide, hbal,
    (C11_balanced_nonneg [Call.increase, Call.increase, Call.decrease, Call.decrease]
      (by decide) hbal).1,
    (C11_balanced_nonneg [Call.increase, Call.increase, Call.decrease, Call.decrease]
      (by decide) hbal).2.2 4 (by decide)⟩

/-- C12: for every sequence of calls on a fresh thread, of any length, the value
returned by call number `k + 1` is the running sum of `+1` / `-1` over the first
`k + 1` calls reduced to the signed 32-bit range: it lies in `[-2^31, 2^31 - 1]` and
differs from the running sum by a multiple of `2^32`.  When every running sum of the
sequence lies in `[-2^31, 2^31 - 1]`, it is the unbounded running sum itself. -/
theorem C12_returns_wrapped_sum (calls : List Call) (k : Nat) (hk : k < calls.length) :
    (returns ALLOC_ENTRY_init calls)[k]? = some (wrapInt (runningSum calls (k + 1)))
      ∧ isInt (wrapInt (runningSum calls (k + 1)))
      ∧ (4294967296 : Int) ∣ wrapInt (runningSum calls (k + 1)) - runningSum calls (k + 1)
      ∧ ((∀ j, j ≤ calls.length → isInt (runningSum calls j)) →
          (returns ALLOC_ENTRY_init calls)[k]? = some (runningSum calls (k + 1))) := by
  have hget : (returns ALLOC_ENTRY_init calls)[k]?
      = some (wrapInt (runningSum calls (k + 1))) := by
    rw [returns_getElem calls _ k hk]
    simp [ALLOC_ENTRY_init]
  refine ⟨hget, isInt_wrapInt _, wrapInt_congruent _, ?_⟩
  intro hall
  rw [hget, wrapInt_of_isInt (hall (k + 1) hk)]

/-- Witness of C12: the third call of decrease, decrease, increase. -/
theorem C12_returns_wrapped_sum_witness :
    2 < [Call.decrease, Call.decrease, Call.increase].length
      ∧ (∀ j, j ≤ [Call.decrease, Call.decrease, Call.increase].length →
          isInt (runningSum [Call.decrease, Call.decrease, Call.increase] j))
      ∧ (returns ALLOC_ENTRY_init [Call.decrease, Call.decrease, Call.increase])[2]?
          = some (wrapInt (runningSum [Call.decrease, Call.decrease, Call.increase] (2 + 1)))
      ∧ (returns ALLOC_ENTRY_init [Call.decrease, Call.decrease, Call.increase])[2]?
          = some (runningSum [Call.decrease, Call.decrease, Call.increase] (2 + 1)) :=
  have hall : ∀ j, j ≤ [Call.decrease, Call.decrease, Call.increase].length →
      isInt (runningSum [Call.decrease, Call.decrease, Call.increase] j) := by
    intro j hj
    have hj3 : j ≤ 3 := hj
    interval_cases j <;> decide
  ⟨by decide, hall,
    (C12_returns_wrapped_sum [Call.decrease, Call.decrease, Call.increase] 2 (by decide)).1,
    (C12_returns_wrapped_sum [Call.decrease, Call.decrease, Call.increase] 2
      (by decide)).2.2.2 hall⟩

/-- C13: the two entry points undo each other and commute on the counter.  For every
`int` value `v` of the counter, the extremes `-2^31` and `2^31 - 1` included,
`alloc_entry_decrease` followed by `alloc_entry_increase` leaves the counter at `v`,
`alloc_entry_increase` followed by `alloc_entry_decrease` leaves it at `v`, and so the
two orders leave the same counter. -/
theorem C13_mutual_inverses (v : Int) (hv : isInt v) :
    (alloc_entry_increase (alloc_entry_decrease v).ALLOC_ENTRY).ALLOC_ENTRY = v
      ∧ (alloc_entry_decrease (alloc_entry_increase v).ALLOC_ENTRY).ALLOC_ENTRY = v
      ∧ (alloc_entry_increase (alloc_entry_decrease v).ALLOC_ENTRY).ALLOC_ENTRY
          = (alloc_entry_decrease (alloc_entry_increase v).ALLOC_ENTRY).ALLOC_ENTRY := by
  unfold isInt INT_MIN INT_MAX at hv
  simp only [alloc_entry_increase, alloc_entry_decrease, wrapInt]
  omega

/-- Witness of C13: the smallest `int`, where the decrease wraps. -/
theorem C13_mutual_inverses_witness :
    isInt (-2147483648)
      ∧ (alloc_entry_increase (alloc_entry_decrease (-2147483648)).ALLOC_ENTRY).ALLOC_ENTRY
          = -2147483648
      ∧ (alloc_entry_decrease (alloc_entry_increase (-2147483648)).ALLOC_ENTRY).ALLOC_ENTRY
          = -2147483648
      ∧ (alloc_entry_increase (alloc_entry_decrease (-2147483648)).ALLOC_ENTRY).ALLOC_ENTRY
          = (alloc_entry_decrease (alloc_entry_increase (-2147483648)).ALLOC_ENTRY).ALLOC_ENTRY :=
  ⟨by decide, C13_mutual_inverses (-2147483648) (by decide)⟩

/-- C14: the counter a fresh thread ends with depends only on how many calls of each
kind it made.  After a sequence with `n` calls of `alloc_entry_increase` and `m` calls
of `alloc_entry_decrease` the counter is `n - m` reduced to the signed 32-bit range (it
lies in `[-2^31, 2^31 - 1]` and differs from `n - m` by a multiple of `2^32`), and any
rearrangement of the same calls ends with the same counter. -/
theorem C14_order_independent (calls other : List Call) (hperm : calls.Perm other) :
    counterAfter ALLOC_ENTRY_init calls
        = wrapInt ((calls.count Call.increase : Int) - (calls.count Call.decrease : Int))
      ∧ isInt (counterAfter ALLOC_ENTRY_init calls)
      ∧ (4294967296 : Int) ∣ counterAfter ALLOC_ENTRY_init calls
          - ((calls.count Call.increase : Int) - (calls.count Call.decrease : Int))
      ∧ counterAfter ALLOC_ENTRY_init other = counterAfter ALLOC_ENTRY_init calls := by
  refine ⟨counterAfter_eq_counts calls, ?_, ?_, ?_⟩
  · rw [counterAfter_eq_counts]
    exact isInt_wrapInt _
  · rw [counterAfter_eq_counts]
    exact wrapInt_congruent _
  · rw [counterAfter_eq_counts, counterAfter_eq_counts, hperm.count_eq, hperm.count_eq]

/-- Witness of C14: increase, decrease, decrease against decrease, increase,
decrease. -/
theorem C14_order_independent_witness :
    [Call.increase, Call.decrease, Call.decrease].Perm
        [Call.decrease, Call.increase, Call.decrease]
      ∧ counterAfter ALLOC_ENTRY_init [Call.increase, Call.decrease, Call.decrease] = -1
      ∧ counterAfter ALLOC_ENTRY_init [Call.decrease, Call.increase, Call.decrease]
          = counterAfter ALLOC_ENTRY_init [Call.increase, Call.decrease, Call.decrease] :=
  ⟨List.Perm.swap _ _ _,
    (C14_order_independent [Call.increase, Call.decrease, Call.decrease]
      [Call.decrease, Call.increase, Call.decrease] (List.Perm.swap _ _ _)).1.trans
      (by decide),
    (C14_order_independent [Call.increase, Call.decrease, Call.decrease]
      [Call.decrease, Call.increase, Call.decrease] (List.Perm.swap _ _ _)).2.2.2⟩

end ProfMem
